import Mathlib

/-!
Shallow embedding of src/deco.py: decorator utilities for call counting
(countcalls), memoization (memo), n-ary folding of a binary function
(n_ary / n_ary_func) and call tracing (trace), together with the decorated
demo functions foo and fib.

Python dicts keyed by hash(args) are modelled as association lists from
Int hash keys to cached values; the builtin hash is a parameter of the
embedding, since the source calls it on arbitrary argument tuples.
Raised exceptions are modelled with Except.  Wrapper state (call counters,
caches, trace depth, printed output) is passed explicitly.
-/

namespace Deco

/-- Association-list lookup by key, modelling Python dict lookup
(wrapper.cache[h]) and dict membership (h not in wrapper.cache). -/
def cacheLookup {β : Type} (h : Int) : List (Int × β) → Option β
  | [] => none
  | (k, v) :: rest => if h = k then some v else cacheLookup h rest

/-- Embeds n_ary_func (src/deco.py lines 69-75): a one-element sequence
returns its element, a longer sequence returns
function(sequence[0], n_ary_func(function, sequence[1:])), and the empty
sequence raises TypeError("%s() of empty sequence" % function.__name__).
fname stands for function.__name__. -/
def n_ary_func {α : Type} (function : α → α → α) (fname : String) :
    List α → Except String α
  | [x] => .ok x
  | x :: y :: rest => (n_ary_func function fname (y :: rest)).map (function x)
  | [] => .error (fname ++ "() of empty sequence")

/-- The right fold described by the specification, written from the wording
of the spec for comparison with n_ary_func: fold f x [] = x and
fold f x1 (x2 :: rest) = f x1 (fold f x2 rest). -/
def rightFoldSpec {α : Type} (f : α → α → α) : α → List α → α
  | x, [] => x
  | x, y :: ys => f x (rightFoldSpec f y ys)

/-- Embeds the wrapper built by memo (src/deco.py lines 48-66) for an inner
function that cannot raise: computes h = hash(args); when h is not in the
cache it stores func(args, kwargs) under h; the result is wrapper.cache[h].
Returns (result, updated cache, number of invocations of func). -/
def memo_wrapper {α κ β : Type} (hashFn : α → Int) (func : α → κ → β)
    (args : α) (kwargs : κ) (cache : List (Int × β)) :
    β × List (Int × β) × Nat :=
  let h := hashFn args
  match cacheLookup h cache with
  | some r => (r, cache, 0)
  | none => (func args kwargs, (h, func args kwargs) :: cache, 1)

/-- Embeds the same memo wrapper for an inner function that can raise: when
func raises on a cache miss, the assignment wrapper.cache[h] = ... is never
reached, so the cache is unchanged and the exception propagates. -/
def memoE_wrapper {α κ ε β : Type} (hashFn : α → Int)
    (func : α → κ → Except ε β) (args : α) (kwargs : κ)
    (cache : List (Int × β)) :
    Except ε β × List (Int × β) × Nat :=
  let h := hashFn args
  match cacheLookup h cache with
  | some r => (.ok r, cache, 0)
  | none =>
    match func args kwargs with
    | .ok v => (.ok v, (h, v) :: cache, 1)
    | .error e => (.error e, cache, 1)

/-- Embeds the wrapper built by countcalls (src/deco.py lines 35-45): it
runs func, then increments wrapper.calls, then returns the result; when
func raises, the increment statement is never reached. -/
def countcalls_wrapper {α ε β : Type} (func : α → Except ε β) (args : α)
    (calls : Nat) : Except ε β × Nat :=
  match func args with
  | .ok r => (.ok r, calls + 1)
  | .error e => (.error e, calls)

/-- Shared lemma: n_ary_func on a nonempty list is the right fold. -/
lemma n_ary_func_eq_rightFold {α : Type} (f : α → α → α) (fname : String)
    (x : α) (xs : List α) :
    n_ary_func f fname (x :: xs) = .ok (rightFoldSpec f x xs) := by
  induction xs generalizing x with
  | nil => rfl
  | cons y ys ih =>
    simp only [n_ary_func, rightFoldSpec, ih y, Except.map]

/-- Claim C1: for every binary function f and every call of the n-ary
wrapped function with one or more positional arguments, the result is the
right fold of f over the argument list: one argument is returned unchanged,
and with head x and tail xs the result is the nested pairwise application
f x1 (f x2 (... xn)). -/
theorem n_ary_is_right_fold {α : Type} (f : α → α → α) (fname : String)
    (x : α) (xs : List α) :
    n_ary_func f fname (x :: xs) = .ok (rightFoldSpec f x xs) :=
  n_ary_func_eq_rightFold f fname x xs

/-- Claim C2: calling the memoized wrapper twice with the same argument
tuple invokes the underlying function at most once in total and returns
equal results both times, from any starting cache. -/
theorem memo_at_most_once {α κ β : Type} (hashFn : α → Int)
    (func : α → κ → β) (args : α) (kwargs : κ) (cache : List (Int × β)) :
    (memo_wrapper hashFn func args kwargs cache).1
      = (memo_wrapper hashFn func args kwargs
          (memo_wrapper hashFn func args kwargs cache).2.1).1
    ∧ (memo_wrapper hashFn func args kwargs cache).2.2
      + (memo_wrapper hashFn func args kwargs
          (memo_wrapper hashFn func args kwargs cache).2.1).2.2 ≤ 1 := by
  cases hc : cacheLookup (hashFn args) cache with
  | some r => simp [memo_wrapper, hc]
  | none => simp [memo_wrapper, hc, cacheLookup]

/-- Claim C9: from the fresh empty cache, a second call with equal
positional arguments but different keyword arguments does not invoke the
underlying function again and returns the first call result: the cache key
is hash(args) only, so the differing keyword arguments are ignored. -/
theorem memo_ignores_kwargs {α κ β : Type} (hashFn : α → Int)
    (func : α → κ → β) (args : α) (kw1 kw2 : κ) :
    memo_wrapper hashFn func args kw1 []
      = (func args kw1, [(hashFn args, func args kw1)], 1)
    ∧ (memo_wrapper hashFn func args kw2 [(hashFn args, func args kw1)]).1
      = func args kw1
    ∧ (memo_wrapper hashFn func args kw2
        [(hashFn args, func args kw1)]).2.2 = 0 := by
  refine ⟨?_, ?_, ?_⟩ <;> simp [memo_wrapper, cacheLookup]

/-- Claim C6: a memo cache entry, once present, is never overwritten or
removed: every call preserves every existing entry, and a call whose key is
already present returns the stored value and leaves the cache unchanged. -/
theorem memo_cache_persistent {α κ β : Type} (hashFn : α → Int)
    (func : α → κ → β) (args : α) (kwargs : κ) (cache : List (Int × β))
    (k : Int) (v : β) (hv : cacheLookup k cache = some v) :
    cacheLookup k (memo_wrapper hashFn func args kwargs cache).2.1 = some v
    ∧ (hashFn args = k →
        memo_wrapper hashFn func args kwargs cache = (v, cache, 0)) := by
  cases hc : cacheLookup (hashFn args) cache with
  | some r =>
    refine ⟨by simp [memo_wrapper, hc, hv], fun hk => ?_⟩
    have hc2 := hc
    rw [hk, hv] at hc2
    injection hc2 with hrv
    subst hrv
    simp [memo_wrapper, hc]
  | none =>
    refine ⟨?_, fun hk => ?_⟩
    · have hne : ¬ (k = hashFn args) := by
        intro h
        rw [← h, hv] at hc
        exact Option.noConfusion hc
      simp [memo_wrapper, hc, cacheLookup, hne, hv]
    · rw [hk, hv] at hc
      exact Option.noConfusion hc

/-- Witness for claim C6 at a concrete cache: the entry for key 3 with
value 99 survives a call with arguments hashing to 3, which returns the
stored value and leaves the cache unchanged. -/
theorem memo_cache_persistent_witness :
    cacheLookup 3 [((3 : Int), (99 : Int))] = some 99
    ∧ (cacheLookup 3 (memo_wrapper (fun n => n) (fun a _ => a + 1) (3 : Int)
          () [(3, 99)]).2.1 = some 99
       ∧ ((fun (n : Int) => n) 3 = 3 →
          memo_wrapper (fun n => n) (fun a _ => a + 1) (3 : Int) () [(3, 99)]
            = (99, [(3, 99)], 0))) :=
  ⟨by decide,
   memo_cache_persistent (fun n => n) (fun a _ => a + 1) 3 () [(3, 99)] 3 99
     (by decide)⟩

/-- Claim C10: if the wrapped function raises, the countcalls counter is
left unchanged, because the increment runs only after a normal return; the
counter therefore counts successful completions, not attempted calls. -/
theorem countcalls_unchanged_on_error {α ε β : Type} (func : α → Except ε β)
    (args : α) (calls : Nat) (e : ε) (he : func args = .error e) :
    countcalls_wrapper func args calls = (.error e, calls) := by
  simp [countcalls_wrapper, he]

/-- Witness for claim C10: a function that always raises leaves the counter
at its previous value 5. -/
theorem countcalls_unchanged_on_error_witness :
    (fun _ : Nat => (Except.error "boom" : Except String Nat)) 0
      = Except.error "boom"
    ∧ countcalls_wrapper
        (fun _ : Nat => (Except.error "boom" : Except String Nat)) 0 5
      = (Except.error "boom", 5) :=
  ⟨rfl, countcalls_unchanged_on_error _ 0 5 "boom" rfl⟩

/-- The raw demo function foo (src/deco.py lines 131-135) before
decoration: binary addition; its __name__ is "foo". -/
def fooRaw (a b : Int) : Int := a + b

/-- State of the decorated foo = countcalls(memo(n_ary(fooRaw))): the
countcalls counter together with the memo cache. -/
structure FooState where
  calls : Nat
  cache : List (Int × Int)
deriving DecidableEq

/-- One call of the decorated foo (src/deco.py lines 131-135): the
countcalls wrapper (increment only after a normal return, exactly as in
countcalls_wrapper) around memo around the n-ary fold of fooRaw.  hashFn
models the builtin hash on the positional-argument tuple.  Returns
(result, new state, number of invocations of the inner n-ary wrapper). -/
def fooCall (hashFn : List Int → Int) (args : List Int) (s : FooState) :
    Except String Int × FooState × Nat :=
  let p := memoE_wrapper hashFn (fun a _ => n_ary_func fooRaw "foo" a)
    args () s.cache
  match p.1 with
  | .ok v => (.ok v, ⟨s.calls + 1, p.2.1⟩, p.2.2)
  | .error e => (.error e, ⟨s.calls, p.2.1⟩, p.2.2)

/-- A concrete stand-in for the builtin hash on the demo argument tuples,
injective on the tuples the demo uses (hash collisions are out of scope,
as the specification itself notes). -/
def tupleHash (l : List Int) : Int := l.foldl (fun a x => 31 * a + x + 1) 7

/-- Counterexample to claim C3 as stated: in the demo sequence
foo(4,3); foo(4,3,2); foo(4,3) the third call is a pure cache hit (zero
inner invocations) and yet the exposed counter does advance on it, going
from 2 to 3, because countcalls is the outermost wrapper and counts every
invocation, cached or not. -/
theorem foo_counter_advances_on_hit :
    (fooCall tupleHash [4, 3] ⟨0, []⟩).1 = .ok 7
    ∧ (fooCall tupleHash [4, 3, 2]
        (fooCall tupleHash [4, 3] ⟨0, []⟩).2.1).1 = .ok 9
    ∧ (fooCall tupleHash [4, 3, 2]
        (fooCall tupleHash [4, 3] ⟨0, []⟩).2.1).2.1.calls = 2
    ∧ (fooCall tupleHash [4, 3]
        (fooCall tupleHash [4, 3, 2]
          (fooCall tupleHash [4, 3] ⟨0, []⟩).2.1).2.1).1 = .ok 7
    ∧ (fooCall tupleHash [4, 3]
        (fooCall tupleHash [4, 3, 2]
          (fooCall tupleHash [4, 3] ⟨0, []⟩).2.1).2.1).2.2 = 0
    ∧ (fooCall tupleHash [4, 3]
        (fooCall tupleHash [4, 3, 2]
          (fooCall tupleHash [4, 3] ⟨0, []⟩).2.1).2.1).2.1.calls = 3 :=
  ⟨rfl, rfl, rfl, rfl, rfl, rfl⟩

/-- Claim C3 amended: with any hash that does not collide on the two demo
tuples, the calls foo(4,3), foo(4,3,2), foo(4,3) return 7, 9 and 7; the
first two miss the cache and invoke the inner function once each, the
third is a cache hit invoking it zero times; and the exposed counter
advances on every invocation, reading 1, 2 and 3 after the three calls. -/
theorem foo_demo_amended (hashFn : List Int → Int)
    (hne : hashFn [4, 3] ≠ hashFn [4, 3, 2]) :
    fooCall hashFn [4, 3] ⟨0, []⟩
      = (.ok 7, ⟨1, [(hashFn [4, 3], 7)]⟩, 1)
    ∧ fooCall hashFn [4, 3, 2] ⟨1, [(hashFn [4, 3], 7)]⟩
      = (.ok 9, ⟨2, [(hashFn [4, 3, 2], 9), (hashFn [4, 3], 7)]⟩, 1)
    ∧ fooCall hashFn [4, 3] ⟨2, [(hashFn [4, 3, 2], 9), (hashFn [4, 3], 7)]⟩
      = (.ok 7, ⟨3, [(hashFn [4, 3, 2], 9), (hashFn [4, 3], 7)]⟩, 0) := by
  have hne2 : ¬ (hashFn [4, 3, 2] = hashFn [4, 3]) := fun h => hne h.symm
  refine ⟨?_, ?_, ?_⟩ <;>
    norm_num [fooCall, memoE_wrapper, cacheLookup, n_ary_func, fooRaw,
      Except.map, hne, hne2]

/-- Witness for the amended claim C3 at the concrete demo hash. -/
theorem foo_demo_amended_witness :
    tupleHash [4, 3] ≠ tupleHash [4, 3, 2]
    ∧ (fooCall tupleHash [4, 3] ⟨0, []⟩
        = (.ok 7, ⟨1, [(tupleHash [4, 3], 7)]⟩, 1)
      ∧ fooCall tupleHash [4, 3, 2] ⟨1, [(tupleHash [4, 3], 7)]⟩
        = (.ok 9, ⟨2, [(tupleHash [4, 3, 2], 9), (tupleHash [4, 3], 7)]⟩, 1)
      ∧ fooCall tupleHash [4, 3]
          ⟨2, [(tupleHash [4, 3, 2], 9), (tupleHash [4, 3], 7)]⟩
        = (.ok 7, ⟨3, [(tupleHash [4, 3, 2], 9), (tupleHash [4, 3], 7)]⟩, 0)) :=
  ⟨by decide, foo_demo_amended tupleHash (by decide)⟩

/-- Python string repetition indent * depth, empty for a non-positive
count. -/
def pyStrMul (s : String) (n : Int) : String :=
  if n ≤ 0 then "" else String.join (List.replicate n.toNat s)

/-- The entering line printed by the trace wrapper (src/deco.py line 117):
print(indent * depth, "-->", name(args)) joins its pieces with spaces. -/
def traceEnterLine (indent : String) (depth : Int) (fname argStr : String) :
    String :=
  pyStrMul indent depth ++ " --> " ++ fname ++ "(" ++ argStr ++ ")"

/-- The exiting line printed by the trace wrapper (src/deco.py lines
121-122): print(indent * depth, "<--", name(args) with a trailing space,
result), again joined with spaces. -/
def traceExitLine (indent : String) (depth : Int)
    (fname argStr res : String) : String :=
  pyStrMul indent depth ++ " <-- " ++ fname ++ "(" ++ argStr ++ ") ==  " ++ res

/-- State threaded through the trace wrapper (src/deco.py lines 111-127):
the depth counter real_decorator.depth, the lines printed so far, and the
private state of the inner function.  The inner function receives the full
state because a recursive call re-enters this same wrapper. -/
structure TrState (σ : Type) where
  depth : Int
  log : List String
  inner : σ

/-- Embeds the wrapper built by trace(indent) (src/deco.py lines 111-127):
print the entering line at the current depth, increment the depth, run the
inner function, decrement the depth, print the exiting line with the
result at the decremented depth, and return the inner result. -/
def trace_wrapper {σ β : Type} (indent fname argStr : String)
    (showRes : β → String) (body : TrState σ → β × TrState σ)
    (s : TrState σ) : β × TrState σ :=
  let s1 : TrState σ :=
    { s with log := s.log ++ [traceEnterLine indent s.depth fname argStr],
             depth := s.depth + 1 }
  let p := body s1
  let s3 : TrState σ := { p.2 with depth := p.2.depth - 1 }
  (p.1, { s3 with
    log := s3.log ++
      [traceExitLine indent s3.depth fname argStr (showRes p.1)] })

/-- Embeds the format expression used inside the trace wrapper at
src/deco.py lines 117 and 121: the format string consumes the function
name and exactly one further value, so the tuple (func.__name__, *args)
formats successfully only when exactly one positional argument was given;
with zero arguments Python raises
TypeError: not enough arguments for format string, and with two or more
TypeError: not all arguments converted during string formatting. -/
def formatNameArgs (fname : String) : List String → Except String String
  | [a] => .ok (fname ++ "(" ++ a ++ ")")
  | [] => .error "not enough arguments for format string"
  | _ :: _ :: _ => .error "not all arguments converted during string formatting"

/-- Embeds the wrapper built by trace(indent) (src/deco.py lines 116-123)
called with an arbitrary positional argument list: the entering print
first evaluates the format expression, so with an argument count other
than one the wrapper raises its own TypeError before anything is printed,
the depth is untouched, and the inner function is never run; with exactly
one argument it behaves as trace_wrapper does, forwarding the inner
result. -/
def traceList_wrapper {σ β : Type} (indent fname : String)
    (showRes : β → String) (args : List String)
    (body : TrState σ → β × TrState σ) (s : TrState σ) :
    Except String β × TrState σ :=
  match formatNameArgs fname args with
  | .error e => (.error e, s)
  | .ok callStr =>
    let s1 : TrState σ :=
      { s with log := s.log ++ [pyStrMul indent s.depth ++ " --> " ++ callStr],
               depth := s.depth + 1 }
    let p := body s1
    let s3 : TrState σ := { p.2 with depth := p.2.depth - 1 }
    (.ok p.1, { s3 with
      log := s3.log ++
        [pyStrMul indent s3.depth ++ " <-- " ++ callStr ++ " ==  "
          ++ showRes p.1] })

/-- State of the decorated fib = countcalls(trace("####")(memo(fibRaw)))
(src/deco.py lines 146-151): trace depth, printed lines, countcalls
counter and memo cache. -/
structure FibState where
  depth : Int
  log : List String
  calls : Nat
  cache : List (Int × Nat)
deriving DecidableEq

/-- One call of the decorated fib (src/deco.py lines 146-151); the
recursive calls fib(n-1) and fib(n-2) re-enter the full decorator stack
through the global name fib.  From outside in: countcalls increments its
counter after the inner call returns; trace prints the entering line and
increments the depth, afterwards decrements the depth and prints the
exiting line; memo looks up the hash of the argument tuple (hashFn models
the builtin hash) and on a miss runs the raw body
1 if n <= 1 else fib(n-1) + fib(n-2), storing the result under the hash.
Returns (result, new state). -/
def fibStack (hashFn : Nat → Int) : Nat → FibState → Nat × FibState
  | n, s =>
    let s1 : FibState :=
      { s with
        log := s.log ++ [traceEnterLine "####" s.depth "fib" (toString n)],
        depth := s.depth + 1 }
    let p : Nat × FibState :=
      match cacheLookup (hashFn n) s1.cache with
      | some v => (v, s1)
      | none =>
        match n with
        | 0 => (1, { s1 with cache := (hashFn 0, 1) :: s1.cache })
        | 1 => (1, { s1 with cache := (hashFn 1, 1) :: s1.cache })
        | m + 2 =>
          let pa := fibStack hashFn (m + 1) s1
          let pb := fibStack hashFn m pa.2
          (pa.1 + pb.1,
            { pb.2 with
              cache := (hashFn (m + 2), pa.1 + pb.1) :: pb.2.cache })
    let s3 : FibState := { p.2 with depth := p.2.depth - 1 }
    (p.1,
      { s3 with
        log := s3.log ++
          [traceExitLine "####" s3.depth "fib" (toString n) (toString p.1)],
        calls := s3.calls + 1 })

example : (fibStack (fun m => (m : Int)) 3 ⟨0, [], 0, []⟩).1 = 3 := by rfl

example : (fibStack (fun m => (m : Int)) 3 ⟨0, [], 0, []⟩).2.calls = 5 := by
  rfl

example : (fibStack (fun m => (m : Int)) 3 ⟨0, [], 0, []⟩).2.depth = 0 := by
  rfl

/-- Shared invariant of the decorated fib: every call restores the trace
depth, only appends to the printed log, and adds exactly two printed lines
per increment of the countcalls counter, one entering and one exiting
trace line for every wrapper invocation. -/
lemma fibStack_invariants (hashFn : Nat → Int) :
    ∀ n s, (fibStack hashFn n s).2.depth = s.depth
      ∧ s.log <+: (fibStack hashFn n s).2.log
      ∧ ∃ k, (fibStack hashFn n s).2.calls = s.calls + k
          ∧ (fibStack hashFn n s).2.log.length = s.log.length + 2 * k := by
  intro n
  induction n using Nat.strong_induction_on with
  | _ n ih =>
    intro s
    rcases n with _ | _ | m
    · cases hc : cacheLookup (hashFn 0) s.cache with
      | some v =>
        refine ⟨by simp [fibStack, hc], ?_, 1, by simp [fibStack, hc], ?_⟩
        · simp [fibStack, hc, List.append_assoc, List.prefix_append]
        · simp [fibStack, hc]
      | none =>
        refine ⟨by simp [fibStack, hc], ?_, 1, by simp [fibStack, hc], ?_⟩
        · simp [fibStack, hc, List.append_assoc, List.prefix_append]
        · simp [fibStack, hc]
    · cases hc : cacheLookup (hashFn 1) s.cache with
      | some v =>
        refine ⟨by simp [fibStack, hc], ?_, 1, by simp [fibStack, hc], ?_⟩
        · simp [fibStack, hc, List.append_assoc, List.prefix_append]
        · simp [fibStack, hc]
      | none =>
        refine ⟨by simp [fibStack, hc], ?_, 1, by simp [fibStack, hc], ?_⟩
        · simp [fibStack, hc, List.append_assoc, List.prefix_append]
        · simp [fibStack, hc]
    · cases hc : cacheLookup (hashFn (m + 2)) s.cache with
      | some v =>
        refine ⟨by simp [fibStack, hc], ?_, 1, by simp [fibStack, hc], ?_⟩
        · simp [fibStack, hc, List.append_assoc, List.prefix_append]
        · simp [fibStack, hc]
      | none =>
        obtain ⟨hd1, hp1, k1, hc1, hlen1⟩ := ih (m + 1) (by omega)
          { s with
            log := s.log ++
              [traceEnterLine "####" s.depth "fib" (toString (m + 2))],
            depth := s.depth + 1 }
        obtain ⟨hd2, hp2, k2, hc2, hlen2⟩ := ih m (by omega)
          (fibStack hashFn (m + 1)
            { s with
              log := s.log ++
                [traceEnterLine "####" s.depth "fib" (toString (m + 2))],
              depth := s.depth + 1 }).2
        refine ⟨?_, ?_, k1 + k2 + 1, ?_, ?_⟩
        · simp [fibStack, hc, hd1, hd2]
        · have hstep : s.log <+: (s.log ++
              [traceEnterLine "####" s.depth "fib" (toString (m + 2))]) :=
            List.prefix_append _ _
          have hmid := (hstep.trans hp1).trans hp2
          simp only [fibStack, hc]
          exact hmid.trans (List.prefix_append _ _)
        · simp [fibStack, hc, hc1, hc2]
          omega
        · simp [fibStack, hc, hlen1, hlen2]
          omega

/-- Claim C4: the countcalls counter increments by exactly one per
invocation of the wrapper: a successful call increments it by one, and in
the recursive, traced, memoized fib every recursive self-call re-enters
the full decorator stack through the global name, the counter rising by
exactly the number of wrapper invocations, each invocation printing
exactly one entering and one exiting trace line; concretely fib(3) from
the initial state makes five invocations. -/
theorem countcalls_one_per_invocation {α ε β : Type} (func : α → Except ε β)
    (args : α) (calls : Nat) (r : β) (hr : func args = .ok r)
    (hashFn : Nat → Int) (n : Nat) (s : FibState) :
    countcalls_wrapper func args calls = (.ok r, calls + 1)
    ∧ (fibStack hashFn n s).2.log.length - s.log.length
        = 2 * ((fibStack hashFn n s).2.calls - s.calls)
    ∧ s.calls ≤ (fibStack hashFn n s).2.calls
    ∧ (fibStack (fun m => (m : Int)) 3 ⟨0, [], 0, []⟩).2.calls = 5 := by
  obtain ⟨hd, hp, k, hcalls, hlen⟩ := fibStack_invariants hashFn n s
  exact ⟨by simp [countcalls_wrapper, hr], by omega, by omega, by rfl⟩

/-- Witness for claim C4: a concrete successful call advances the counter
from 0 to 1, instantiated together with the fib facts at n = 1. -/
theorem countcalls_one_per_invocation_witness :
    (fun _ : Nat => (Except.ok 42 : Except String Nat)) 0 = Except.ok 42
    ∧ (countcalls_wrapper (fun _ : Nat => (Except.ok 42 : Except String Nat))
          0 0 = (Except.ok 42, 0 + 1)
      ∧ (fibStack (fun m => (m : Int)) 1 ⟨0, [], 0, []⟩).2.log.length
          - ([] : List String).length
        = 2 * ((fibStack (fun m => (m : Int)) 1 ⟨0, [], 0, []⟩).2.calls - 0)
      ∧ 0 ≤ (fibStack (fun m => (m : Int)) 1 ⟨0, [], 0, []⟩).2.calls
      ∧ (fibStack (fun m => (m : Int)) 3 ⟨0, [], 0, []⟩).2.calls = 5) :=
  ⟨rfl, countcalls_one_per_invocation _ 0 0 42 rfl (fun m => (m : Int)) 1
    ⟨0, [], 0, []⟩⟩

/-- Claim C7: the tracer increments its depth on entry and decrements it
on exit, so whenever the inner function restores the depth, as any nest of
synchronous calls through this wrapper does, a traced call restores the
depth to its value from before the call; the entering and exiting lines
are printed with indentation indent repeated depth times at the depth
current for that call; and the fully decorated recursive fib restores the
depth across every call. -/
theorem trace_depth_unwinds {σ β : Type} (indent fname argStr : String)
    (showRes : β → String) (body : TrState σ → β × TrState σ)
    (s : TrState σ)
    (hd : ∀ t, (body t).2.depth = t.depth)
    (hl : ∀ t, t.log <+: (body t).2.log) :
    (trace_wrapper indent fname argStr showRes body s).2.depth = s.depth
    ∧ (∃ mid, (trace_wrapper indent fname argStr showRes body s).2.log
        = s.log ++ [traceEnterLine indent s.depth fname argStr] ++ mid
          ++ [traceExitLine indent s.depth fname argStr
              (showRes (trace_wrapper indent fname argStr showRes body s).1)])
    ∧ ∀ (hashFn : Nat → Int) (n : Nat) (t : FibState),
        (fibStack hashFn n t).2.depth = t.depth := by
  refine ⟨by simp [trace_wrapper, hd], ?_,
    fun hashFn n t => (fibStack_invariants hashFn n t).1⟩
  obtain ⟨mid, hmid⟩ := hl
    { s with log := s.log ++ [traceEnterLine indent s.depth fname argStr],
             depth := s.depth + 1 }
  refine ⟨mid, ?_⟩
  simp only [trace_wrapper]
  rw [← hmid]
  simp [hd, List.append_assoc]

/-- Witness for claim C7 at a concrete inner function that returns True
without recursing, traced with the indent of the demo. -/
theorem trace_depth_unwinds_witness :
    (∀ t : TrState Unit, ((fun u => (true, u)) t).2.depth = t.depth)
    ∧ (∀ t : TrState Unit, t.log <+: ((fun u => (true, u)) t).2.log)
    ∧ ((trace_wrapper "####" "fib" "1" (fun _ => "True")
          (fun u => (true, u)) ⟨0, [], ()⟩).2.depth = (0 : Int)
      ∧ (∃ mid, (trace_wrapper "####" "fib" "1" (fun _ => "True")
            (fun u => (true, u)) ⟨0, [], ()⟩).2.log
          = [] ++ [traceEnterLine "####" 0 "fib" "1"] ++ mid
            ++ [traceExitLine "####" 0 "fib" "1"
                ("True")])
      ∧ ∀ (hashFn : Nat → Int) (n : Nat) (t : FibState),
          (fibStack hashFn n t).2.depth = t.depth) :=
  ⟨fun _ => rfl, fun t => List.prefix_refl t.log,
   trace_depth_unwinds "####" "fib" "1" (fun _ => "True")
     (fun u => (true, u)) ⟨0, [], ()⟩ (fun _ => rfl)
     (fun t => List.prefix_refl t.log)⟩

/-- Counterexample to claim C5 as stated: the zero-argument n-ary error is
not the only error the wrapping utilities themselves raise, because the
trace wrapper raises too: traced with the two positional arguments 4 and
3, its entering format expression raises its own TypeError, the inner
function is never run, the state is untouched, and the message differs
from the n-ary argument-count message. -/
theorem trace_format_error_counterexample :
    traceList_wrapper "####" "fib" (fun n : Nat => toString n) ["4", "3"]
        (fun u => (7, u)) (⟨0, [], ()⟩ : TrState Unit)
      = (.error "not all arguments converted during string formatting",
         ⟨0, [], ()⟩)
    ∧ "not all arguments converted during string formatting"
        ≠ "fib" ++ "() of empty sequence" :=
  ⟨rfl, by decide⟩

/-- Claim C5 amended: invoking the n-ary wrapper with zero arguments
raises the argument-count TypeError naming the wrapped function, and any
nonempty call succeeds; the countcalls and memo wrappers raise nothing of
their own, only forwarding the inner result or a cached value; but the
trace wrapper does raise an error of its own whenever the traced call has
an argument count other than one, because its format expression consumes
the function name plus exactly one argument: zero arguments raise the
not-enough-arguments TypeError and two or more the
not-all-arguments-converted TypeError, each leaving the state untouched,
while a call with exactly one argument is forwarded without error. -/
theorem n_ary_empty_and_trace_format_errors {α γ κ δ ε σ β : Type}
    (f : α → α → α) (fname : String) (x : α) (xs : List α)
    (g : γ → Except ε δ) (args : γ) (calls : Nat)
    (hashFn : γ → Int) (func : γ → κ → Except ε δ) (kwargs : κ)
    (cache : List (Int × δ))
    (indent tname : String) (showRes : β → String)
    (body : TrState σ → β × TrState σ) (s : TrState σ)
    (a b : String) (rest : List String) :
    n_ary_func f fname [] = .error (fname ++ "() of empty sequence")
    ∧ (∃ v, n_ary_func f fname (x :: xs) = .ok v)
    ∧ (countcalls_wrapper g args calls).1 = g args
    ∧ ((∃ v, (memoE_wrapper hashFn func args kwargs cache).1 = .ok v)
       ∨ (memoE_wrapper hashFn func args kwargs cache).1
           = func args kwargs)
    ∧ (∃ v, (traceList_wrapper indent tname showRes [a] body s).1 = .ok v)
    ∧ traceList_wrapper indent tname showRes [] body s
        = (.error "not enough arguments for format string", s)
    ∧ traceList_wrapper indent tname showRes (a :: b :: rest) body s
        = (.error "not all arguments converted during string formatting",
           s) := by
  refine ⟨rfl, ⟨rightFoldSpec f x xs, n_ary_func_eq_rightFold f fname x xs⟩,
    ?_, ?_, ?_, rfl, rfl⟩
  · cases hg : g args <;> simp [countcalls_wrapper, hg]
  · cases hc : cacheLookup (hashFn args) cache with
    | some r => exact Or.inl ⟨r, by simp [memoE_wrapper, hc]⟩
    | none =>
      cases hf : func args kwargs with
      | ok v => exact Or.inl ⟨v, by simp [memoE_wrapper, hc, hf]⟩
      | error e => exact Or.inr (by simp [memoE_wrapper, hc, hf])
  · exact ⟨_, rfl⟩

/-- Function metadata: the __name__ and __doc__ attributes that Python
introspection reads on a function object. -/
structure FuncMeta where
  name : String
  doc : Option String
deriving DecidableEq

/-- Embeds functools.update_wrapper as invoked through functools.wraps:
the wrapper function object takes over the wrapped function __name__ and
__doc__. -/
def update_wrapper (wrapper wrapped : FuncMeta) : FuncMeta :=
  { wrapper with name := wrapped.name, doc := wrapped.doc }

/-- A freshly defined inner function literally named wrapper, before
functools.wraps rewrites its metadata; it has no docstring. -/
def plainWrapperMeta : FuncMeta := { name := "wrapper", doc := none }

/-- Metadata effect of countcalls (src/deco.py line 38): @wraps(func) on
the inner wrapper. -/
def countcallsMeta (func : FuncMeta) : FuncMeta :=
  update_wrapper plainWrapperMeta func

/-- Metadata effect of memo (src/deco.py line 54): @wraps(func) on the
inner wrapper. -/
def memoMeta (func : FuncMeta) : FuncMeta :=
  update_wrapper plainWrapperMeta func

/-- Metadata effect of n_ary (src/deco.py line 84): @wraps(func) on the
inner wrapper. -/
def n_aryMeta (func : FuncMeta) : FuncMeta :=
  update_wrapper plainWrapperMeta func

/-- Metadata effect of the decorator returned by trace(indent)
(src/deco.py line 115): @wraps(func) on the inner wrapper; the indent
argument plays no part in the metadata. -/
def traceMeta (indent : String) (func : FuncMeta) : FuncMeta :=
  update_wrapper plainWrapperMeta func

/-- Claim C8: every wrapping utility, countcalls, memo, n_ary and the
decorator returned by trace, yields a wrapper whose __name__ and __doc__
equal those of the wrapped function. -/
theorem wrappers_preserve_metadata (f : FuncMeta) (indent : String) :
    (countcallsMeta f).name = f.name ∧ (countcallsMeta f).doc = f.doc
    ∧ (memoMeta f).name = f.name ∧ (memoMeta f).doc = f.doc
    ∧ (n_aryMeta f).name = f.name ∧ (n_aryMeta f).doc = f.doc
    ∧ (traceMeta indent f).name = f.name
    ∧ (traceMeta indent f).doc = f.doc :=
  ⟨rfl, rfl, rfl, rfl, rfl, rfl, rfl, rfl⟩

end Deco
